import Mathlib

/-!
Shallow embedding of the two model files of the repository:

* `src/llms/LLMs-from-scratch/gpt2.py` — a GPT-style transformer language
  model (`LayerNrom`, `GELU`, `FeedForward`, `TransformerBlock`, `GPTModel`)
  and the greedy decoding loop `generate_text_simple`.
* `src/audio/GLM-4-Voice/cosyvoice/flow/flow.py` — the conditional
  flow-matching speech-synthesis module `MaskedDiffWithXvec`.

Tensors are embedded as nested lists of real numbers (innermost dimension
last).  Framework modules that are injected into the models as constructor
arguments (the attention module, dropout, the flow encoder / length
regulator / decoder) are embedded as function-valued fields, exactly as the
Python classes store them as sub-modules.
-/

noncomputable section

abbrev Vec := List ℝ
abbrev Mat := List (List ℝ)
abbrev T3 := List (List (List ℝ))

/-- Dot product of two vectors (`torch` reduction behind `nn.Linear`). -/
def dotProd (a b : Vec) : ℝ := (List.zipWith (fun x y => x * y) a b).sum

/-- Elementwise addition of two vectors. -/
def addVec (a b : Vec) : Vec := List.zipWith (fun x y => x + y) a b

/-- Matrix action `x @ W.T` for a single input vector: one dot product per weight row. -/
def matVec (w : Mat) (v : Vec) : Vec := w.map (fun row => dotProd row v)

/-- Embedding of `torch.nn.Linear`: weight matrix of shape `[out, in]` plus bias. -/
structure LinearLayer where
  weight : Mat
  bias : Vec

def LinearLayer.apply (f : LinearLayer) (v : Vec) : Vec :=
  addVec (matVec f.weight v) f.bias

/-- Mean over the last dimension (`x.mean(dim=-1)`). -/
def listMean (x : Vec) : ℝ := x.sum / (x.length : ℝ)

/-- Biased variance over the last dimension (`x.var(dim=-1, unbiased=False)`). -/
def listVar (x : Vec) : ℝ :=
  ((x.map (fun t => (t - listMean x) ^ 2)).sum) / (x.length : ℝ)

/-- The `LayerNrom` module of `gpt2.py`: `eps`, learnable `scale` and `shift`. -/
structure LayerNrom where
  eps : ℝ
  scale : Vec
  shift : Vec

/-- Method `LayerNrom.forward` exactly as written in `gpt2.py` lines 55-59:
`norm_x = (x - mean) / sqrt(var + eps)` and the returned value is
`self.scale * norm_x - mean + self.shift` (note the `- mean`). -/
def LayerNrom.forward (ln : LayerNrom) (x : Vec) : Vec :=
  List.zipWith (fun sn sh => sn - listMean x + sh)
    (List.zipWith (fun s n => s * n) ln.scale
      (x.map (fun t => (t - listMean x) / Real.sqrt (listVar x + ln.eps))))
    ln.shift

/-- Modelled from the spec: standard layer normalization
`scale * (x - mean) / sqrt(var + eps) + shift`, taken over the last
dimension; stated separately so it can be compared with the source's
`LayerNrom.forward`. -/
def specLayerNormForward (ln : LayerNrom) (x : Vec) : Vec :=
  List.zipWith (fun sn sh => sn + sh)
    (List.zipWith (fun s n => s * n) ln.scale
      (x.map (fun t => (t - listMean x) / Real.sqrt (listVar x + ln.eps))))
    ln.shift

/-- The `GELU` activation of `gpt2.py` (tanh approximation). -/
def GELU (x : ℝ) : ℝ :=
  0.5 * x * (1 + Real.tanh (Real.sqrt (2 / Real.pi) * (x + 0.044715 * x ^ 3)))

/-- The `FeedForward` block: `Linear(emb, 4*emb) → GELU → Linear(4*emb, emb)`. -/
structure FeedForward where
  lin1 : LinearLayer
  lin2 : LinearLayer

def FeedForward.forward (ff : FeedForward) (v : Vec) : Vec :=
  ff.lin2.apply ((ff.lin1.apply v).map GELU)

/-- Apply a per-vector function at every batch/sequence position of a
rank-3 tensor (how `LayerNrom`, `FeedForward`, `nn.Linear` broadcast). -/
def map2 (f : Vec → Vec) (x : T3) : T3 := x.map (fun m => m.map f)

/-- Elementwise addition of two rank-3 tensors (`x + shortcut`). -/
def addT (x y : T3) : T3 :=
  List.zipWith (fun a b => List.zipWith addVec a b) x y

/-- The `TransformerBlock` of `gpt2.py`.  The attention module (imported
from `attention_mechanisms`, not part of the sources) and the dropout
module are stored as function-valued sub-modules. -/
structure TransformerBlock where
  att : T3 → T3
  ff : FeedForward
  norm1 : LayerNrom
  norm2 : LayerNrom
  drop_shortcut : T3 → T3

/-- Method `TransformerBlock.forward` of `gpt2.py` lines 98-110:
`x = x + drop(att(norm1(x)))` then `x = x + drop(ff(norm2(x)))`,
with each addition written in the source's operand order
(`x + shortcut`, where `x` is the dropout output). -/
def TransformerBlock.forward (tb : TransformerBlock) (x : T3) : T3 :=
  addT
    (tb.drop_shortcut (map2 tb.ff.forward (map2 tb.norm2.forward
      (addT (tb.drop_shortcut (tb.att (map2 tb.norm1.forward x))) x))))
    (addT (tb.drop_shortcut (tb.att (map2 tb.norm1.forward x))) x)

/-- The `GPTModel` of `gpt2.py`: token and position embedding tables,
embedding dropout, a stack of transformer blocks, final `LayerNrom`,
and a bias-free output head. -/
structure GPTModel where
  tok_emb : Mat
  pos_emb : Mat
  drop_emb : T3 → T3
  trf_blocks : List TransformerBlock
  final_norm : LayerNrom
  out_head : Mat

/-- Sum `tok_embeds + pos_embeds` of `GPTModel.forward`: the token embedding of
every id plus the position embedding of its position (the position row is
broadcast over the batch). -/
def embedInput (m : GPTModel) (inIdx : List (List ℕ)) : T3 :=
  inIdx.map (fun row =>
    List.zipWith addVec (row.map (fun id => m.tok_emb.getD id []))
      ((List.range (inIdx.headD []).length).map (fun p => m.pos_emb.getD p [])))

/-- Method `GPTModel.forward` of `gpt2.py` lines 126-135: embeddings → dropout →
transformer blocks (in `nn.Sequential` order) → final norm → output head. -/
def GPTModel.forward (m : GPTModel) (inIdx : List (List ℕ)) : T3 :=
  map2 (fun v => matVec m.out_head v)
    (map2 m.final_norm.forward
      (m.trf_blocks.foldl (fun acc tb => tb.forward acc) (m.drop_emb (embedInput m inIdx))))

/-- Claim evaluation input for the `LayerNrom` bug: freshly initialized
parameters (`scale = 1`, `shift = 0`, default `eps = 1e-5`). -/
def lnBugInstance : LayerNrom := { eps := 1e-5, scale := [1, 1], shift := [0, 0] }

/-- C2: the normalization layer used by the GPT model (`LayerNrom`,
applied inside every `TransformerBlock` and as `final_norm`) does NOT
compute standard layer normalization: on the constant input `[2, 2]` with
freshly initialized parameters the source code returns `[-2, -2]` (because
line 59 subtracts the mean again after scaling), while standard layer
normalization returns `[0, 0]`. -/
theorem layerNrom_subtracts_mean_again :
    lnBugInstance.forward [2, 2] = [-2, -2] ∧
    specLayerNormForward lnBugInstance [2, 2] = [0, 0] ∧
    lnBugInstance.forward [2, 2] ≠ specLayerNormForward lnBugInstance [2, 2] := by
  have hm : listMean [2, 2] = 2 := by
    simp [listMean]
  refine ⟨?_, ?_, ?_⟩
  · simp [LayerNrom.forward, lnBugInstance, hm]
  · simp [specLayerNormForward, lnBugInstance, hm]
  · simp [LayerNrom.forward, specLayerNormForward, lnBugInstance, hm]

theorem addVec_comm (a b : Vec) : addVec a b = addVec b a :=
  List.zipWith_comm_of_comm _ (fun x y => add_comm x y) a b

theorem addMat_comm (a b : Mat) :
    List.zipWith addVec a b = List.zipWith addVec b a :=
  List.zipWith_comm_of_comm _ (fun x y => addVec_comm x y) a b

theorem addT_comm (a b : T3) : addT a b = addT b a :=
  List.zipWith_comm_of_comm _ (fun x y => addMat_comm x y) a b

/-- C5: every `TransformerBlock` applies a residual connection around each
of its two sublayers: the output equals `y + z` with
`y = x + drop(att(norm1(x)))` and `z = drop(ff(norm2(y)))`, self-attention
first and feed-forward second. -/
theorem transformerBlock_residual (tb : TransformerBlock) (x : T3) :
    tb.forward x =
      addT (addT x (tb.drop_shortcut (tb.att (map2 tb.norm1.forward x))))
        (tb.drop_shortcut (map2 tb.ff.forward (map2 tb.norm2.forward
          (addT x (tb.drop_shortcut (tb.att (map2 tb.norm1.forward x))))))) := by
  unfold TransformerBlock.forward
  rw [addT_comm (tb.drop_shortcut (tb.att (map2 tb.norm1.forward x))) x]
  rw [addT_comm]

/-- Index/value pair of the first maximum of a list (`torch.argmax` returns
the index of the first maximal entry). -/
def argmaxP {α : Type} [LinearOrder α] : List α → Option (ℕ × α)
  | [] => none
  | x :: xs =>
    match argmaxP xs with
    | none => some (0, x)
    | some (i, v) => if x < v then some (i + 1, v) else some (0, x)

theorem argmaxP_cons {α : Type} [LinearOrder α] (x : α) (xs : List α) :
    argmaxP (x :: xs) = match argmaxP xs with
      | none => some (0, x)
      | some (i, v) => if x < v then some (i + 1, v) else some (0, x) := rfl

/-- Embedding of `torch.argmax(t, dim=-1)` on a single vector. -/
def argmaxIdx {α : Type} [LinearOrder α] (l : List α) : ℕ :=
  ((argmaxP l).map Prod.fst).getD 0

theorem argmaxP_eq_none {α : Type} [LinearOrder α] (l : List α) :
    argmaxP l = none ↔ l = [] := by
  cases l with
  | nil => simp [argmaxP]
  | cons x xs =>
    rw [argmaxP_cons]
    cases hxs : argmaxP xs with
    | none => simp
    | some p =>
      obtain ⟨i, v⟩ := p
      by_cases hx : x < v <;> simp [hx]

theorem argmaxP_spec {α : Type} [LinearOrder α] (d : α) :
    ∀ (l : List α) (i : ℕ) (v : α), argmaxP l = some (i, v) →
      i < l.length ∧ l.getD i d = v ∧ ∀ j, j < l.length → l.getD j d ≤ v := by
  intro l
  induction l with
  | nil => intro i v h; simp [argmaxP] at h
  | cons x xs ih =>
    intro i v h
    rw [argmaxP_cons] at h
    cases hxs : argmaxP xs with
    | none =>
      rw [hxs] at h
      simp only [Option.some.injEq, Prod.mk.injEq] at h
      obtain ⟨hi, hv⟩ := h
      subst hi; subst hv
      have hnil : xs = [] := (argmaxP_eq_none xs).1 hxs
      subst hnil
      refine ⟨by simp, by simp, ?_⟩
      intro j hj
      have hj0 : j = 0 := by simpa using hj
      subst hj0
      simp
    | some p =>
      obtain ⟨q, w⟩ := p
      rw [hxs] at h
      replace h : (if x < w then some (q + 1, w) else some (0, x)) = some (i, v) := h
      obtain ⟨hq, hw1, hw2⟩ := ih q w hxs
      by_cases hx : x < w
      · rw [if_pos hx] at h
        simp only [Option.some.injEq, Prod.mk.injEq] at h
        obtain ⟨hi, hv⟩ := h
        subst hi; subst hv
        refine ⟨by simpa using Nat.succ_lt_succ hq, by simpa using hw1, ?_⟩
        intro j hj
        cases j with
        | zero => simpa using le_of_lt hx
        | succ j =>
          rw [List.getD_cons_succ]
          exact hw2 j (by simpa using Nat.lt_of_succ_lt_succ hj)
      · rw [if_neg hx] at h
        simp only [Option.some.injEq, Prod.mk.injEq] at h
        obtain ⟨hi, hv⟩ := h
        subst hi; subst hv
        refine ⟨by simp, by simp, ?_⟩
        intro j hj
        cases j with
        | zero => simp
        | succ j =>
          rw [List.getD_cons_succ]
          exact le_trans (hw2 j (by simpa using Nat.lt_of_succ_lt_succ hj)) (le_of_not_lt hx)

theorem argmaxP_map {α β : Type} [LinearOrder α] [LinearOrder β] (f : α → β)
    (hf : ∀ a b : α, f a < f b ↔ a < b) :
    ∀ l : List α, argmaxP (l.map f) = (argmaxP l).map (fun p => (p.1, f p.2)) := by
  intro l
  induction l with
  | nil => simp [argmaxP]
  | cons x xs ih =>
    cases hxs : argmaxP xs with
    | none =>
      have hm : argmaxP (List.map f xs) = none := by rw [ih, hxs]; rfl
      rw [List.map_cons, argmaxP_cons, argmaxP_cons, hxs, hm]
      rfl
    | some p =>
      obtain ⟨q, w⟩ := p
      have hm : argmaxP (List.map f xs) = some (q, f w) := by rw [ih, hxs]; rfl
      rw [List.map_cons, argmaxP_cons, argmaxP_cons, hxs, hm]
      by_cases hx : x < w
      · have hfx : f x < f w := (hf x w).2 hx
        simp [hx, hfx]
      · have hfx : ¬ f x < f w := fun hc => hx ((hf x w).1 hc)
        simp [hx, hfx]

theorem argmaxIdx_map {α β : Type} [LinearOrder α] [LinearOrder β] (f : α → β)
    (hf : ∀ a b : α, f a < f b ↔ a < b) (l : List α) :
    argmaxIdx (l.map f) = argmaxIdx l := by
  unfold argmaxIdx
  rw [argmaxP_map f hf l]
  cases argmaxP l <;> simp

/-- Embedding of `torch.softmax(t, dim=-1)` on a single vector. -/
def softmax (l : List ℝ) : List ℝ :=
  l.map (fun x => Real.exp x / (l.map Real.exp).sum)

theorem expSum_pos (l : List ℝ) (h : l ≠ []) : 0 < (l.map Real.exp).sum := by
  apply List.sum_pos
  · intro x hx
    obtain ⟨y, _, rfl⟩ := List.mem_map.1 hx
    exact Real.exp_pos y
  · simpa using h

theorem softmax_entry_lt_iff (l : List ℝ) (h : l ≠ []) (a b : ℝ) :
    Real.exp a / (l.map Real.exp).sum < Real.exp b / (l.map Real.exp).sum ↔ a < b := by
  rw [div_lt_div_iff_of_pos_right (expSum_pos l h), Real.exp_lt_exp]

/-- Softmax is a strictly monotone reweighting, so it does not change the
index of the first maximum: `argmax(softmax(l)) = argmax(l)`. -/
theorem argmaxIdx_softmax (l : List ℝ) (h : l ≠ []) :
    argmaxIdx (softmax l) = argmaxIdx l :=
  argmaxIdx_map _ (fun a b => softmax_entry_lt_iff l h a b) l

theorem argmaxP_isSome {α : Type} [LinearOrder α] (l : List α) (h : l ≠ []) :
    ∃ p, argmaxP l = some p := by
  cases hq : argmaxP l with
  | none => exact absurd ((argmaxP_eq_none _).1 hq) h
  | some p => exact ⟨p, rfl⟩

/-- The entry at the argmax index is the maximum of the list. -/
theorem getD_le_getD_argmaxIdx {α : Type} [LinearOrder α] (l : List α) (d : α)
    (h : l ≠ []) : ∀ j, j < l.length → l.getD j d ≤ l.getD (argmaxIdx l) d := by
  obtain ⟨⟨i, v⟩, hp⟩ := argmaxP_isSome l h
  obtain ⟨hlen, hval, hle⟩ := argmaxP_spec d l i v hp
  have hidx : argmaxIdx l = i := by unfold argmaxIdx; rw [hp]; rfl
  intro j hj
  rw [hidx, hval]
  exact hle j hj

/-- Slice `idx[:, -context_size:]` on a single row, with Python slice semantics
(`-0:` keeps the whole row). -/
def sliceLast {α : Type} (c : ℕ) (row : List α) : List α :=
  if c = 0 then row else row.drop (row.length - c)

/-- One iteration of the loop body of `generate_text_simple` (lines
140-147 of `gpt2.py`): condition on the last `context_size` tokens, take
the last-position logits, softmax, argmax, and append the chosen token to
every row. -/
def generateStep (model : List (List ℕ) → T3) (contextSize : ℕ)
    (idx : List (List ℕ)) : List (List ℕ) :=
  List.zipWith (fun row t => row ++ [t]) idx
    (((model (idx.map (fun row => sliceLast contextSize row))).map
      (fun mat => mat.getLastD [])).map (fun l => argmaxIdx (softmax l)))

/-- Function `generate_text_simple(model, idx, max_new_tokens, context_size)` of
`gpt2.py`: iterate the loop body `max_new_tokens` times. -/
def generate_text_simple (model : List (List ℕ) → T3) (idx : List (List ℕ)) :
    ℕ → ℕ → List (List ℕ)
  | 0, _ => idx
  | n + 1, contextSize =>
      generate_text_simple model (generateStep model contextSize idx) n contextSize

/-- The last-position logits (`logits[:, -1, :]`) that the generation loop
computes for row `i` of the current sequence tensor `idx`. -/
def lastLogitsAt (model : List (List ℕ) → T3) (contextSize : ℕ)
    (idx : List (List ℕ)) (i : ℕ) : Vec :=
  ((model (idx.map (fun row => sliceLast contextSize row))).getD i []).getLastD []

theorem generate_text_simple_succ (model : List (List ℕ) → T3)
    (idx : List (List ℕ)) (n contextSize : ℕ) :
    generate_text_simple model idx (n + 1) contextSize
      = generate_text_simple model (generateStep model contextSize idx) n contextSize := rfl

/-- Iterating the loop once more applies the loop body to the result of the
previous iterations. -/
theorem generate_text_simple_peel (model : List (List ℕ) → T3)
    (idx : List (List ℕ)) (n contextSize : ℕ) :
    generate_text_simple model idx (n + 1) contextSize
      = generateStep model contextSize (generate_text_simple model idx n contextSize) := by
  induction n generalizing idx with
  | zero => rfl
  | succ n ih =>
    rw [generate_text_simple_succ, ih, generate_text_simple_succ]

theorem generateStep_row (model : List (List ℕ) → T3) (contextSize : ℕ)
    (idx : List (List ℕ)) (i : ℕ) (hi : i < idx.length)
    (hb : (model (idx.map (fun row => sliceLast contextSize row))).length = idx.length) :
    (generateStep model contextSize idx).getD i []
      = idx.getD i [] ++ [argmaxIdx (softmax (lastLogitsAt model contextSize idx i))] := by
  unfold generateStep
  have hlen : (((model (idx.map (fun row => sliceLast contextSize row))).map
      (fun mat => mat.getLastD [])).map (fun l => argmaxIdx (softmax l))).length
      = idx.length := by
    simp [hb]
  have hzip : (List.zipWith (fun (row : List ℕ) t => row ++ [t]) idx
      (((model (idx.map (fun row => sliceLast contextSize row))).map
        (fun mat => mat.getLastD [])).map (fun l => argmaxIdx (softmax l)))).length
      = idx.length := by
    rw [List.length_zipWith, hlen, min_self]
  rw [List.getD_eq_getElem _ _ (by rw [hzip]; exact hi)]
  rw [List.getElem_zipWith]
  rw [List.getElem_map, List.getElem_map]
  rw [List.getD_eq_getElem _ _ hi]
  congr 2
  unfold lastLogitsAt
  rw [List.getD_eq_getElem _ _ (by rw [hb]; exact hi)]

/-- C1: in every iteration of the generation loop, `generate_text_simple`
appends to every row the token with the highest probability under softmax
of the last-position logits, which is the argmax of those logits (greedy
decoding).  `cur` is the sequence tensor after `k` iterations. -/
theorem generate_text_simple_greedy (model : List (List ℕ) → T3)
    (idx : List (List ℕ)) (contextSize k i : ℕ)
    (hi : i < (generate_text_simple model idx k contextSize).length)
    (hb : (model ((generate_text_simple model idx k contextSize).map
        (fun row => sliceLast contextSize row))).length
      = (generate_text_simple model idx k contextSize).length)
    (hne : lastLogitsAt model contextSize (generate_text_simple model idx k contextSize) i ≠ []) :
    generate_text_simple model idx (k + 1) contextSize
      = generateStep model contextSize (generate_text_simple model idx k contextSize)
    ∧ (generate_text_simple model idx (k + 1) contextSize).getD i []
      = (generate_text_simple model idx k contextSize).getD i []
        ++ [argmaxIdx (lastLogitsAt model contextSize
              (generate_text_simple model idx k contextSize) i)]
    ∧ (∀ j, j < (lastLogitsAt model contextSize
          (generate_text_simple model idx k contextSize) i).length →
        (softmax (lastLogitsAt model contextSize
            (generate_text_simple model idx k contextSize) i)).getD j 0
          ≤ (softmax (lastLogitsAt model contextSize
              (generate_text_simple model idx k contextSize) i)).getD
              (argmaxIdx (lastLogitsAt model contextSize
                (generate_text_simple model idx k contextSize) i)) 0) := by
  set cur := generate_text_simple model idx k contextSize with hcur
  refine ⟨generate_text_simple_peel model idx k contextSize, ?_, ?_⟩
  · rw [generate_text_simple_peel model idx k contextSize, ← hcur]
    rw [generateStep_row model contextSize cur i hi hb]
    rw [argmaxIdx_softmax _ hne]
  · intro j hj
    have hlen : j < (softmax (lastLogitsAt model contextSize cur i)).length := by
      simpa [softmax] using hj
    have := getD_le_getD_argmaxIdx (softmax (lastLogitsAt model contextSize cur i)) 0
      (by simp [softmax, hne]) j hlen
    rwa [argmaxIdx_softmax _ hne] at this

/-- A concrete model used to exercise the generation-loop theorems: it
returns, for every row of the batch, a single logits position `[0, 1]`. -/
def constModel : List (List ℕ) → T3 := fun b => b.map (fun _ => [[0, 1]])

theorem generate_text_simple_greedy_witness :
    generate_text_simple constModel [[2]] 1 4
      = generateStep constModel 4 (generate_text_simple constModel [[2]] 0 4) :=
  (generate_text_simple_greedy constModel [[2]] 4 0 0
    (by simp [generate_text_simple])
    (by simp [generate_text_simple, constModel])
    (by simp [generate_text_simple, lastLogitsAt, constModel])).1

/-- The slice `idx[:, -context_size:]` keeps at most `context_size` tokens
and is a suffix of the row (for a positive window). -/
theorem sliceLast_window {α : Type} (c : ℕ) (row : List α) (hc : 0 < c) :
    (sliceLast c row).length ≤ c ∧ ∃ s, row = s ++ sliceLast c row := by
  unfold sliceLast
  rw [if_neg (by omega : ¬ c = 0)]
  constructor
  · rw [List.length_drop]; omega
  · exact ⟨row.take (row.length - c), (List.take_append_drop _ row).symm⟩

theorem generateStep_length (model : List (List ℕ) → T3) (contextSize : ℕ)
    (idx : List (List ℕ)) (hmodel : ∀ b, (model b).length = b.length) :
    (generateStep model contextSize idx).length = idx.length := by
  unfold generateStep
  rw [List.length_zipWith]
  simp [hmodel]

theorem generateStep_row_length (model : List (List ℕ) → T3) (contextSize : ℕ)
    (idx : List (List ℕ)) (i : ℕ) (hi : i < idx.length)
    (hmodel : ∀ b, (model b).length = b.length) :
    ((generateStep model contextSize idx).getD i []).length
      = (idx.getD i []).length + 1 := by
  rw [generateStep_row model contextSize idx i hi (by rw [hmodel]; simp)]
  simp

theorem generate_text_simple_batch (model : List (List ℕ) → T3)
    (hmodel : ∀ b, (model b).length = b.length) (idx : List (List ℕ))
    (n contextSize : ℕ) :
    (generate_text_simple model idx n contextSize).length = idx.length := by
  induction n generalizing idx with
  | zero => rfl
  | succ n ih =>
    rw [generate_text_simple_succ, ih (generateStep model contextSize idx)]
    exact generateStep_length model contextSize idx hmodel

/-- C4: the greedy generation loop runs exactly `max_new_tokens` iterations
(it is defined by recursion on that counter), appends exactly one token per
row per iteration — so every returned row has length `input length +
max_new_tokens` — and each iteration conditions the model only on
`sliceLast context_size`, a suffix of the current row of at most
`context_size` tokens. -/
theorem generate_text_simple_length (model : List (List ℕ) → T3)
    (hmodel : ∀ b, (model b).length = b.length) (idx : List (List ℕ))
    (n contextSize : ℕ) :
    (generate_text_simple model idx n contextSize).length = idx.length
    ∧ (∀ i, i < idx.length →
        ((generate_text_simple model idx n contextSize).getD i []).length
          = (idx.getD i []).length + n)
    ∧ (∀ row : List ℕ, 0 < contextSize →
        (sliceLast contextSize row).length ≤ contextSize
        ∧ ∃ s, row = s ++ sliceLast contextSize row) := by
  refine ⟨generate_text_simple_batch model hmodel idx n contextSize, ?_,
    fun row hc => sliceLast_window contextSize row hc⟩
  induction n generalizing idx with
  | zero => intro i hi; rfl
  | succ n ih =>
    intro i hi
    rw [generate_text_simple_succ]
    have hstep : i < (generateStep model contextSize idx).length := by
      rw [generateStep_length model contextSize idx hmodel]; exact hi
    rw [ih (generateStep model contextSize idx) i hstep]
    rw [generateStep_row_length model contextSize idx i hi hmodel]
    omega

theorem generate_text_simple_length_witness :
    (generate_text_simple constModel [[2]] 3 4).length = 1
    ∧ ((generate_text_simple constModel [[2]] 3 4).getD 0 []).length = 4 :=
  ⟨(generate_text_simple_length constModel (fun b => by simp [constModel]) [[2]] 3 4).1,
   (generate_text_simple_length constModel (fun b => by simp [constModel]) [[2]] 3 4).2.1
     0 (by simp)⟩

theorem generate_text_simple_extends (model : List (List ℕ) → T3)
    (hmodel : ∀ b, (model b).length = b.length) (n : ℕ) :
    ∀ (idx : List (List ℕ)) (contextSize i : ℕ), i < idx.length →
      ∃ t, (generate_text_simple model idx n contextSize).getD i []
        = idx.getD i [] ++ t := by
  induction n with
  | zero => intro idx contextSize i hi; exact ⟨[], (List.append_nil _).symm⟩
  | succ n ih =>
    intro idx contextSize i hi
    have hstep : i < (generateStep model contextSize idx).length := by
      rw [generateStep_length model contextSize idx hmodel]; exact hi
    obtain ⟨t, ht⟩ := ih (generateStep model contextSize idx) contextSize i hstep
    rw [generate_text_simple_succ, ht,
      generateStep_row model contextSize idx i hi (by rw [hmodel]; simp)]
    exact ⟨_ :: t, by rw [List.append_assoc]; rfl⟩

/-- C8: `generate_text_simple` never modifies the prompt: the first `T`
entries of every returned row are exactly the input row; generated tokens
are only appended at the end. -/
theorem generate_text_simple_keeps_prompt (model : List (List ℕ) → T3)
    (hmodel : ∀ b, (model b).length = b.length) (idx : List (List ℕ))
    (n contextSize i : ℕ) (hi : i < idx.length) :
    ((generate_text_simple model idx n contextSize).getD i []).take
        (idx.getD i []).length
      = idx.getD i [] := by
  obtain ⟨t, ht⟩ :=
    generate_text_simple_extends model hmodel n idx contextSize i hi
  rw [ht]
  exact List.take_left _ _

theorem generate_text_simple_keeps_prompt_witness :
    ((generate_text_simple constModel [[5]] 2 3).getD 0 []).take 1 = [5] :=
  generate_text_simple_keeps_prompt constModel (fun b => by simp [constModel])
    [[5]] 2 3 0 (by simp)

/-- A matrix of shape `[r, c]`. -/
def ShapeM (r c : ℕ) (m : Mat) : Prop := m.length = r ∧ ∀ v ∈ m, v.length = c

/-- A rank-3 tensor of shape `[b, t, d]`. -/
def ShapeT (b t d : ℕ) (x : T3) : Prop :=
  x.length = b ∧ ∀ mat ∈ x, mat.length = t ∧ ∀ v ∈ mat, v.length = d

theorem mem_zipWith {α β γ : Type} (f : α → β → γ) :
    ∀ (a : List α) (b : List β), ∀ c ∈ List.zipWith f a b,
      ∃ x ∈ a, ∃ y ∈ b, c = f x y := by
  intro a
  induction a with
  | nil => intro b c hc; simp at hc
  | cons x xs ih =>
    intro b c hc
    cases b with
    | nil => simp at hc
    | cons y ys =>
      rw [List.zipWith_cons_cons] at hc
      rcases List.mem_cons.1 hc with h | h
      · exact ⟨x, by simp, y, by simp, h⟩
      · obtain ⟨x2, hx2, y2, hy2, rfl⟩ := ih ys c h
        exact ⟨x2, by simp [hx2], y2, by simp [hy2], rfl⟩

theorem matVec_length (w : Mat) (v : Vec) : (matVec w v).length = w.length := by
  simp [matVec]

theorem linear_apply_length (f : LinearLayer) (v : Vec) {d : ℕ}
    (hw : f.weight.length = d) (hb : f.bias.length = d) :
    (f.apply v).length = d := by
  simp [LinearLayer.apply, addVec, matVec, hw, hb]

theorem layerNrom_length (ln : LayerNrom) (v : Vec) {d : ℕ}
    (hs : ln.scale.length = d) (hh : ln.shift.length = d) (hv : v.length = d) :
    (ln.forward v).length = d := by
  simp [LayerNrom.forward, hs, hh, hv]

theorem ff_forward_length (ff : FeedForward) (v : Vec) {d : ℕ}
    (hw : ff.lin2.weight.length = d) (hb : ff.lin2.bias.length = d) :
    (ff.forward v).length = d := by
  simp [FeedForward.forward, LinearLayer.apply, addVec, matVec, hw, hb]

theorem map2_shape {f : Vec → Vec} {d e b t : ℕ}
    (hf : ∀ v : Vec, v.length = d → (f v).length = e) {x : T3}
    (hx : ShapeT b t d x) : ShapeT b t e (map2 f x) := by
  obtain ⟨hb, hrows⟩ := hx
  refine ⟨by simp [map2, hb], ?_⟩
  intro mat hmat
  obtain ⟨mat0, hmat0, rfl⟩ := List.mem_map.1 (by simpa [map2] using hmat)
  obtain ⟨hlen, hvs⟩ := hrows mat0 hmat0
  refine ⟨by simp [hlen], ?_⟩
  intro v hv
  obtain ⟨v0, hv0, rfl⟩ := List.mem_map.1 hv
  exact hf v0 (hvs v0 hv0)

theorem addT_shape {b t d : ℕ} {x y : T3} (hx : ShapeT b t d x)
    (hy : ShapeT b t d y) : ShapeT b t d (addT x y) := by
  obtain ⟨hxb, hxr⟩ := hx
  obtain ⟨hyb, hyr⟩ := hy
  refine ⟨by simp [addT, List.length_zipWith, hxb, hyb], ?_⟩
  intro mat hmat
  obtain ⟨mx, hmx, my, hmy, rfl⟩ := mem_zipWith _ x y mat (by simpa [addT] using hmat)
  obtain ⟨hmx1, hmx2⟩ := hxr mx hmx
  obtain ⟨hmy1, hmy2⟩ := hyr my hmy
  refine ⟨by simp [List.length_zipWith, hmx1, hmy1], ?_⟩
  intro v hv
  obtain ⟨vx, hvx, vy, hvy, rfl⟩ := mem_zipWith addVec mx my v hv
  simp [addVec, List.length_zipWith, hmx2 vx hvx, hmy2 vy hvy]

/-- Well-formedness of a transformer block for embedding width `d`:
attention and dropout are shape-preserving (true of the real
`MultiHeadAttention` with `d_in = d_out` and of `nn.Dropout`), the two
norms carry `d` parameters, and the second feed-forward layer projects
back to `d`. -/
def WfBlock (d : ℕ) (tb : TransformerBlock) : Prop :=
  (∀ b t x, ShapeT b t d x → ShapeT b t d (tb.att x)) ∧
  (∀ b t x, ShapeT b t d x → ShapeT b t d (tb.drop_shortcut x)) ∧
  tb.norm1.scale.length = d ∧ tb.norm1.shift.length = d ∧
  tb.norm2.scale.length = d ∧ tb.norm2.shift.length = d ∧
  tb.ff.lin2.weight.length = d ∧ tb.ff.lin2.bias.length = d

theorem block_forward_shape {d : ℕ} (tb : TransformerBlock) (hwf : WfBlock d tb)
    {b t : ℕ} {x : T3} (hx : ShapeT b t d x) : ShapeT b t d (tb.forward x) := by
  obtain ⟨hatt, hdrop, h1s, h1h, h2s, h2h, hw2, hb2⟩ := hwf
  have hn1 := map2_shape (fun v hv => layerNrom_length tb.norm1 v h1s h1h hv) hx
  have ha := hatt _ _ _ hn1
  have hd := hdrop _ _ _ ha
  have hy := addT_shape hd hx
  have hn2 := map2_shape (fun v hv => layerNrom_length tb.norm2 v h2s h2h hv) hy
  have hf := map2_shape (fun v _ => ff_forward_length tb.ff v hw2 hb2) hn2
  have hd2 := hdrop _ _ _ hf
  exact addT_shape hd2 hy

theorem blocks_fold_shape {d b t : ℕ} (blocks : List TransformerBlock)
    (hwf : ∀ tb ∈ blocks, WfBlock d tb) {x : T3} (hx : ShapeT b t d x) :
    ShapeT b t d (blocks.foldl (fun acc tb => tb.forward acc) x) := by
  induction blocks generalizing x with
  | nil => simpa using hx
  | cons tb tbs ih =>
    simp only [List.foldl_cons]
    exact ih (fun tb2 h2 => hwf tb2 (by simp [h2]))
      (block_forward_shape tb (hwf tb (by simp)) hx)

theorem embedInput_shape (m : GPTModel) (inIdx : List (List ℕ))
    {vocab embDim ctxLen seqLen : ℕ}
    (htok : ShapeM vocab embDim m.tok_emb)
    (hpos : ShapeM ctxLen embDim m.pos_emb)
    (hrect : ∀ r ∈ inIdx, r.length = seqLen)
    (hhead : (inIdx.headD []).length = seqLen)
    (hctx : seqLen ≤ ctxLen)
    (hids : ∀ r ∈ inIdx, ∀ id ∈ r, id < vocab) :
    ShapeT inIdx.length seqLen embDim (embedInput m inIdx) := by
  obtain ⟨htl, htr⟩ := htok
  obtain ⟨hpl, hpr⟩ := hpos
  unfold embedInput
  refine ⟨by rw [List.length_map], ?_⟩
  intro mat hmat
  obtain ⟨row, hrow, rfl⟩ := List.mem_map.1 hmat
  constructor
  · rw [List.length_zipWith, List.length_map, List.length_map,
      List.length_range, hrect row hrow, hhead, min_self]
  · intro v hv
    obtain ⟨tv, htv, pv, hpv, rfl⟩ := mem_zipWith addVec _ _ v hv
    obtain ⟨id, hid, rfl⟩ := List.mem_map.1 htv
    obtain ⟨p, hp, rfl⟩ := List.mem_map.1 hpv
    have h1 : (m.tok_emb.getD id []).length = embDim := by
      apply htr
      rw [List.getD_eq_getElem _ _ (htl ▸ hids row hrow id hid)]
      exact List.getElem_mem _
    have hp2 : p < ctxLen := by
      have hpr2 : p < (inIdx.headD []).length := List.mem_range.1 hp
      omega
    have h2 : (m.pos_emb.getD p []).length = embDim := by
      apply hpr
      rw [List.getD_eq_getElem _ _ (hpl ▸ hp2)]
      exact List.getElem_mem _
    unfold addVec
    rw [List.length_zipWith, h1, h2, min_self]

/-- C3: `GPTModel.forward` adds the position embedding of position `p` to
every row's `p`-th token embedding, pushes the sum through dropout, the
`n_layers` transformer blocks, the final norm, and the bias-free output
head, and returns logits of shape `[batch_size, seq_len, vocab_size]`. -/
theorem gptModel_forward_spec (m : GPTModel) (vocab embDim ctxLen seqLen : ℕ)
    (inIdx : List (List ℕ))
    (htok : ShapeM vocab embDim m.tok_emb)
    (hpos : ShapeM ctxLen embDim m.pos_emb)
    (hdrop : ∀ b t x, ShapeT b t embDim x → ShapeT b t embDim (m.drop_emb x))
    (hblocks : ∀ tb ∈ m.trf_blocks, WfBlock embDim tb)
    (hfs : m.final_norm.scale.length = embDim)
    (hfh : m.final_norm.shift.length = embDim)
    (hout : m.out_head.length = vocab)
    (hrect : ∀ r ∈ inIdx, r.length = seqLen)
    (hhead : (inIdx.headD []).length = seqLen)
    (hctx : seqLen ≤ ctxLen)
    (hids : ∀ r ∈ inIdx, ∀ id ∈ r, id < vocab) :
    ShapeT inIdx.length seqLen vocab (m.forward inIdx)
    ∧ ∀ i, i < inIdx.length → ∀ p, p < seqLen →
        ((embedInput m inIdx).getD i []).getD p []
          = addVec (m.tok_emb.getD ((inIdx.getD i []).getD p 0) [])
              (m.pos_emb.getD p []) := by
  constructor
  · have hemb := embedInput_shape m inIdx htok hpos hrect hhead hctx hids
    have h1 := hdrop _ _ _ hemb
    have h2 := blocks_fold_shape m.trf_blocks hblocks h1
    have h3 := map2_shape
      (f := m.final_norm.forward)
      (fun v hv => layerNrom_length m.final_norm v hfs hfh hv) h2
    have h4 := map2_shape (e := vocab)
      (f := fun v => matVec m.out_head v)
      (fun v _ => by rw [matVec_length, hout]) h3
    exact h4
  · intro i hi p hp
    have hrowlen : (inIdx[i]).length = seqLen := hrect _ (List.getElem_mem hi)
    have hpl : p < (inIdx[i]).length := by rw [hrowlen]; exact hp
    unfold embedInput
    have hmaplen : i < (inIdx.map (fun row =>
        List.zipWith addVec (row.map (fun id => m.tok_emb.getD id []))
          ((List.range (inIdx.headD []).length).map
            (fun q => m.pos_emb.getD q [])))).length := by
      rw [List.length_map]; exact hi
    rw [List.getD_eq_getElem _ _ hmaplen, List.getElem_map]
    have hziplen : p < (List.zipWith addVec
        ((inIdx[i]).map (fun id => m.tok_emb.getD id []))
        ((List.range (inIdx.headD []).length).map
          (fun q => m.pos_emb.getD q []))).length := by
      rw [List.length_zipWith, List.length_map, List.length_map,
        List.length_range, hrowlen, hhead, min_self]
      exact hp
    rw [List.getD_eq_getElem _ _ hziplen, List.getElem_zipWith,
      List.getElem_map, List.getElem_map, List.getElem_range]
    have h1 : inIdx.getD i [] = inIdx[i] := List.getD_eq_getElem _ _ hi
    have h2 : (inIdx[i]).getD p 0 = (inIdx[i])[p] := List.getD_eq_getElem _ _ hpl
    rw [h1, h2]

/-- A concrete two-token, one-dimensional, block-free GPT model used to
exercise the forward-shape theorem. -/
def tinyGPT : GPTModel :=
  { tok_emb := [[1], [2]]
    pos_emb := [[0], [1]]
    drop_emb := fun x => x
    trf_blocks := []
    final_norm := { eps := 1e-5, scale := [1], shift := [0] }
    out_head := [[1], [1]] }

theorem gptModel_forward_spec_witness :
    ShapeT 1 2 2 (tinyGPT.forward [[0, 1]]) :=
  (gptModel_forward_spec tinyGPT 2 1 2 2 [[0, 1]]
    (by refine ⟨rfl, ?_⟩; intro v hv; simp [tinyGPT] at hv; rcases hv with rfl | rfl <;> rfl)
    (by refine ⟨rfl, ?_⟩; intro v hv; simp [tinyGPT] at hv; rcases hv with rfl | rfl <;> rfl)
    (fun b t x h => h)
    (by intro tb htb; exact absurd htb (List.not_mem_nil tb))
    rfl rfl rfl
    (by intro r hr; simp at hr; subst hr; rfl)
    rfl
    (le_refl 2)
    (by decide)).1

/-- Mel frame count of `flow.py` line 124:
`(token_len / input_frame_rate * 22050 / 256).int()` — float division and
multiplication evaluated left to right, truncated to an integer. -/
def featLenCalc (tokenLen rate : ℕ) : ℕ :=
  (((tokenLen : ℚ) / (rate : ℚ) * 22050 / 256).floor).toNat

/-- Modelled from the spec: `make_pad_mask` from `cosyvoice.utils.mask` is
not under the sources; it builds, from the sequence lengths, the boolean
mask that is `True` exactly at padded positions (position index ≥ length). -/
def make_pad_mask (lengths : List ℕ) (maxLen : ℕ) : List (List Bool) :=
  lengths.map (fun L => (List.range maxLen).map (fun t => decide (L ≤ t)))

/-- Conversion `(~mask).float()`: negate the pad mask and convert it to `1.0 / 0.0`. -/
def floatNotMask (mask : List (List Bool)) : Mat :=
  mask.map (fun r => r.map (fun b => if b then (0 : ℝ) else 1))

/-- Embedding of `F.normalize(x, dim=1)` on one row: divide by `max(‖x‖₂, 1e-12)`. -/
def l2normalizeRow (v : Vec) : Vec :=
  v.map (fun x => x / max (Real.sqrt ((v.map (fun t => t ^ 2)).sum)) (1e-12))

/-- Embedding of `torch.clamp(token, min=0)` on one id. -/
def clampMin0 (z : ℤ) : ℤ := max z 0

/-- Lookup `self.input_embedding(torch.clamp(token, min=0))`: clamp every speech
token id at 0, then look its row up in the embedding table (used by both
`MaskedDiffWithXvec.forward` line 74 and `.inference` line 119). -/
def embedTokens (table : Mat) (token : List (List ℤ)) : T3 :=
  token.map (fun row => row.map (fun id => table.getD (clampMin0 id).toNat []))

/-- Multiply a `[seq, 1]` float mask into a `[seq, d]` tensor (one batch
element of `token * mask`). -/
def maskMul (maskRow : Vec) (x : Mat) : Mat :=
  List.zipWith (fun s v => v.map (fun t => s * t)) maskRow x

/-- Embedding of `t.transpose(1, 2)` on one batch element. -/
def transposeM (m : Mat) : Mat :=
  (List.range (m.headD []).length).map (fun j => m.map (fun row => row.getD j 0))

/-- The fill loop `for i, j in enumerate(prompt_feat_len): conds[i, :j] =
prompt_feat[i]` of `flow.py` lines 130-131. -/
def fillConds (base : T3) (prompt_feat : T3) (pfl : List ℕ) : T3 :=
  base.mapIdx (fun i c =>
    match pfl[i]? with
    | some j => (prompt_feat.getD i []).take j ++ c.drop j
    | none => c)

/-- The `MaskedDiffWithXvec` module of `flow.py`.  The encoder, length
regulator and flow decoder are injected sub-modules (constructor
arguments in the Python class) and are therefore function-valued fields;
lengths are kept as per-batch lists as in the tensors of the source. -/
structure MaskedDiffWithXvec where
  output_size : ℕ
  input_frame_rate : ℕ
  vocab_size : ℕ
  input_embedding : Mat
  spk_embed_affine_layer : LinearLayer
  encoder : T3 → List ℕ → T3 × List ℕ
  encoder_proj : LinearLayer
  length_regulator : T3 → List ℕ → T3 × List ℕ
  decoder : T3 → T3 → Mat → T3 → ℕ → T3
  decoder_loss : T3 → T3 → T3 → Mat → T3 → ℝ

/-- Method `MaskedDiffWithXvec.forward` of `flow.py` lines 55-100 (the training
pass).  The two random draws of the conditioning loop are abstracted into
`skipCond` (`random.random() < 0.5`) and `condIndex`
(`random.randint(0, int(0.8 * j))`), and `F.interpolate(..., mode=
"nearest")` into `interp`; the loss of the injected flow decoder is the
`decoder_loss` field. -/
def MaskedDiffWithXvec.forward (m : MaskedDiffWithXvec)
    (token : List (List ℤ)) (token_len : List ℕ)
    (feat : T3) (feat_len : List ℕ) (embedding : Mat)
    (skipCond : ℕ → Bool) (condIndex : ℕ → ℕ)
    (interp : T3 → ℕ → ℕ → T3) : ℝ :=
  let emb := (embedding.map l2normalizeRow).map m.spk_embed_affine_layer.apply
  let maskF := floatNotMask (make_pad_mask token_len (token_len.foldr max 0))
  let x := List.zipWith maskMul maskF (embedTokens m.input_embedding token)
  let h := (m.encoder x token_len).1
  let h2 := h.map (fun mat => mat.map m.encoder_proj.apply)
  let h3 := (m.length_regulator h2 feat_len).1
  let conds0 := feat.mapIdx (fun i fi =>
    if skipCond i then fi.map (fun row => row.map (fun _ => (0 : ℝ)))
    else fi.take (condIndex i)
      ++ (fi.drop (condIndex i)).map (fun row => row.map (fun _ => (0 : ℝ))))
  let conds := conds0.map transposeM
  let mask2 := floatNotMask (make_pad_mask feat_len (feat_len.foldr max 0))
  let featI := interp feat (h3.headD []).length ((h3.headD []).headD []).length
  m.decoder_loss (featI.map transposeM) (mask2.map (fun r => [r]))
    (h3.map transposeM) emb conds

/-- Method `MaskedDiffWithXvec.inference` of `flow.py` lines 102-144.  The
leading `assert token.shape[0] == 1` is embedded as the `if`: a batch of
any other size raises `AssertionError`, i.e. returns `none`. -/
def MaskedDiffWithXvec.inference (m : MaskedDiffWithXvec)
    (token : List (List ℤ)) (token_len : List ℕ)
    (prompt_token : List (List ℤ)) (prompt_token_len : List ℕ)
    (prompt_feat : T3) (prompt_feat_len : List ℕ)
    (embedding : Mat) : Option T3 :=
  if token.length = 1 then
    let spks := (embedding.map l2normalizeRow).map m.spk_embed_affine_layer.apply
    let token2 := List.zipWith (fun a b => a ++ b) prompt_token token
    let tlen := List.zipWith (fun a b => a + b) prompt_token_len token_len
    let maskF := floatNotMask (make_pad_mask tlen (tlen.foldr max 0))
    let x := List.zipWith maskMul maskF (embedTokens m.input_embedding token2)
    let h := (m.encoder x tlen).1
    let h2 := h.map (fun mat => mat.map m.encoder_proj.apply)
    let flens := tlen.map (fun L => featLenCalc L m.input_frame_rate)
    let h3 := (m.length_regulator h2 flens).1
    let flenMax := flens.foldr max 0
    let promptLen := (prompt_feat.getD 0 []).length
    let condsBase : T3 := [List.replicate flenMax (List.replicate m.output_size (0 : ℝ))]
    let conds1 := if promptLen ≠ 0
      then fillConds condsBase prompt_feat prompt_feat_len
      else condsBase
    let conds := conds1.map transposeM
    let mask2 := floatNotMask (make_pad_mask flens flenMax)
    let feat := m.decoder (h3.map transposeM) (mask2.map (fun r => [r])) spks conds 10
    some (if promptLen ≠ 0
      then feat.map (fun bm => bm.map (fun ch => ch.drop promptLen))
      else feat)
  else
    none

/-- The x-vector conditioning of `inference`: L2-normalize the speaker
embedding, then project it through `spk_embed_affine_layer`. -/
def infSpks (m : MaskedDiffWithXvec) (embedding : Mat) : Mat :=
  (embedding.map l2normalizeRow).map m.spk_embed_affine_layer.apply

/-- Embedding of `torch.concat([prompt_token, token], dim=1)`. -/
def infTokens (prompt_token token : List (List ℤ)) : List (List ℤ) :=
  List.zipWith (fun a b => a ++ b) prompt_token token

/-- Sum `prompt_token_len + token_len` of `inference`. -/
def infTokenLens (prompt_token_len token_len : List ℕ) : List ℕ :=
  List.zipWith (fun a b => a + b) prompt_token_len token_len

/-- Stage 1 of `inference`: embed the concatenated speech tokens and zero
the padded positions. -/
def infEmbedded (m : MaskedDiffWithXvec) (token2 : List (List ℤ))
    (tlen : List ℕ) : T3 :=
  List.zipWith maskMul (floatNotMask (make_pad_mask tlen (tlen.foldr max 0)))
    (embedTokens m.input_embedding token2)

/-- Stage 2 of `inference`: text encoder followed by the encoder
projection. -/
def infEncoded (m : MaskedDiffWithXvec) (token2 : List (List ℤ))
    (tlen : List ℕ) : T3 :=
  ((m.encoder (infEmbedded m token2 tlen) tlen).1).map
    (fun mat => mat.map m.encoder_proj.apply)

/-- The computed mel lengths `feat_len` of `inference`. -/
def infFeatLens (m : MaskedDiffWithXvec) (tlen : List ℕ) : List ℕ :=
  tlen.map (fun L => featLenCalc L m.input_frame_rate)

/-- Stage 3 of `inference`: stretch the encoded tokens to the computed mel
length with the length regulator. -/
def infRegulated (m : MaskedDiffWithXvec) (token2 : List (List ℤ))
    (tlen : List ℕ) : T3 :=
  (m.length_regulator (infEncoded m token2 tlen) (infFeatLens m tlen)).1

/-- The decoder conditioning tensor of `inference` (prompt features filled
in, then transposed). -/
def infConds (m : MaskedDiffWithXvec) (prompt_feat : T3)
    (prompt_feat_len : List ℕ) (flenMax : ℕ) : T3 :=
  (if (prompt_feat.getD 0 []).length ≠ 0
    then fillConds [List.replicate flenMax (List.replicate m.output_size (0 : ℝ))]
      prompt_feat prompt_feat_len
    else [List.replicate flenMax (List.replicate m.output_size (0 : ℝ))]).map transposeM

/-- Stage 4 of `inference`: the conditional flow-matching decoder applied
to the regulated features, the mel mask, the projected speaker embedding
and the conditioning tensor. -/
def infDecoded (m : MaskedDiffWithXvec) (token2 : List (List ℤ))
    (tlen : List ℕ) (prompt_feat : T3) (prompt_feat_len : List ℕ)
    (embedding : Mat) : T3 :=
  m.decoder ((infRegulated m token2 tlen).map transposeM)
    ((floatNotMask (make_pad_mask (infFeatLens m tlen)
      ((infFeatLens m tlen).foldr max 0))).map (fun r => [r]))
    (infSpks m embedding)
    (infConds m prompt_feat prompt_feat_len ((infFeatLens m tlen).foldr max 0))
    10

/-- The returned mel features of `inference`: the decoder output with the
prompt frames cut off when a prompt was given. -/
def infResult (m : MaskedDiffWithXvec) (token : List (List ℤ))
    (token_len : List ℕ) (prompt_token : List (List ℤ))
    (prompt_token_len : List ℕ) (prompt_feat : T3)
    (prompt_feat_len : List ℕ) (embedding : Mat) : T3 :=
  if (prompt_feat.getD 0 []).length ≠ 0
    then (infDecoded m (infTokens prompt_token token)
        (infTokenLens prompt_token_len token_len) prompt_feat prompt_feat_len
        embedding).map
      (fun bm => bm.map (fun ch => ch.drop (prompt_feat.getD 0 []).length))
    else infDecoded m (infTokens prompt_token token)
      (infTokenLens prompt_token_len token_len) prompt_feat prompt_feat_len
      embedding

/-- C9: `MaskedDiffWithXvec.inference` raises its `AssertionError` (returns
`none`) if and only if the speech-token batch size differs from 1, before
any computation; under the precondition `token.shape[0] == 1` the
assertion branch is unreachable. -/
theorem inference_assert_iff (m : MaskedDiffWithXvec)
    (token : List (List ℤ)) (token_len : List ℕ)
    (prompt_token : List (List ℤ)) (prompt_token_len : List ℕ)
    (prompt_feat : T3) (prompt_feat_len : List ℕ) (embedding : Mat) :
    m.inference token token_len prompt_token prompt_token_len prompt_feat
        prompt_feat_len embedding = none
      ↔ token.length ≠ 1 := by
  unfold MaskedDiffWithXvec.inference
  by_cases h : token.length = 1
  · rw [if_pos h]
    simp [h]
  · rw [if_neg h]
    simp [h]

/-- C6: under the batch-size-1 precondition, `inference` produces its
output by exactly the staged pipeline: the prompt-concatenated speech
tokens are embedded by `input_embedding` (`infEmbedded`), passed through
the text encoder and encoder projection (`infEncoded`), stretched by the
length regulator to the mel length `featLenCalc token_len input_frame_rate
= int(token_len / input_frame_rate * 22050 / 256)` (`infRegulated` /
`infFeatLens`), and the conditional flow-matching decoder is invoked on
the result (`infDecoded`), giving the returned mel features `infResult`. -/
theorem inference_pipeline (m : MaskedDiffWithXvec)
    (token : List (List ℤ)) (token_len : List ℕ)
    (prompt_token : List (List ℤ)) (prompt_token_len : List ℕ)
    (prompt_feat : T3) (prompt_feat_len : List ℕ) (embedding : Mat)
    (h : token.length = 1) :
    m.inference token token_len prompt_token prompt_token_len prompt_feat
        prompt_feat_len embedding
      = some (infResult m token token_len prompt_token prompt_token_len
          prompt_feat prompt_feat_len embedding) := by
  unfold MaskedDiffWithXvec.inference infResult infDecoded infRegulated
    infEncoded infEmbedded infFeatLens infSpks infTokens infTokenLens infConds
  rw [if_pos h]

/-- A concrete flow module whose injected sub-modules are identities, used
to exercise the inference pipeline theorem. -/
def tinyFlow : MaskedDiffWithXvec :=
  { output_size := 2
    input_frame_rate := 50
    vocab_size := 2
    input_embedding := [[1], [2]]
    spk_embed_affine_layer := { weight := [[1]], bias := [0] }
    encoder := fun x l => (x, l)
    encoder_proj := { weight := [[1]], bias := [0] }
    length_regulator := fun h l => (h, l)
    decoder := fun mu _ _ _ _ => mu
    decoder_loss := fun _ _ _ _ _ => 0 }

theorem inference_pipeline_witness :
    tinyFlow.inference [[0]] [1] [[]] [0] [] [] [[1]]
      = some (infResult tinyFlow [[0]] [1] [[]] [0] [] [] [[1]]) :=
  inference_pipeline tinyFlow [[0]] [1] [[]] [0] [] [] [[1]] rfl

/-- C7: `inference` conditions the decoder on the L2-normalized,
affine-projected speaker embedding (`infSpks`, one `output_size`-sized
vector per batch row), returns a tensor with `output_size` mel channels
(given that the injected flow decoder produces batch-1, `output_size`-
channel outputs, as configured in `decoder_conf`), and, when a prompt
feature is present, cuts its `prompt_feat.shape[1]` leading frames off so
only the newly generated portion is returned. -/
theorem inference_mel_channels (m : MaskedDiffWithXvec)
    (token : List (List ℤ)) (token_len : List ℕ)
    (prompt_token : List (List ℤ)) (prompt_token_len : List ℕ)
    (prompt_feat : T3) (prompt_feat_len : List ℕ) (embedding : Mat)
    (h : token.length = 1)
    (hW : m.spk_embed_affine_layer.weight.length = m.output_size)
    (hB : m.spk_embed_affine_layer.bias.length = m.output_size)
    (hdec : ∀ mu mask spks cond nt, (m.decoder mu mask spks cond nt).length = 1
      ∧ ∀ bm ∈ m.decoder mu mask spks cond nt, bm.length = m.output_size) :
    (∀ v ∈ infSpks m embedding, v.length = m.output_size)
    ∧ m.inference token token_len prompt_token prompt_token_len prompt_feat
        prompt_feat_len embedding
      = some (infResult m token token_len prompt_token prompt_token_len
          prompt_feat prompt_feat_len embedding)
    ∧ (infResult m token token_len prompt_token prompt_token_len prompt_feat
        prompt_feat_len embedding).length = 1
    ∧ (∀ bm ∈ infResult m token token_len prompt_token prompt_token_len
        prompt_feat prompt_feat_len embedding, bm.length = m.output_size)
    ∧ ((prompt_feat.getD 0 []).length ≠ 0 →
        infResult m token token_len prompt_token prompt_token_len prompt_feat
          prompt_feat_len embedding
        = (infDecoded m (infTokens prompt_token token)
            (infTokenLens prompt_token_len token_len) prompt_feat
            prompt_feat_len embedding).map
          (fun bm => bm.map (fun ch => ch.drop (prompt_feat.getD 0 []).length))) := by
  refine ⟨?_, inference_pipeline m token token_len prompt_token
    prompt_token_len prompt_feat prompt_feat_len embedding h, ?_, ?_, ?_⟩
  · intro v hv
    unfold infSpks at hv
    obtain ⟨w, _, rfl⟩ := List.mem_map.1 hv
    exact linear_apply_length _ _ hW hB
  · unfold infResult
    by_cases hne : (prompt_feat.getD 0 []).length ≠ 0
    · rw [if_pos hne, List.length_map]
      exact (hdec _ _ _ _ _).1
    · rw [if_neg hne]
      exact (hdec _ _ _ _ _).1
  · intro bm hbm
    unfold infResult at hbm
    by_cases hne : (prompt_feat.getD 0 []).length ≠ 0
    · rw [if_pos hne] at hbm
      obtain ⟨bm0, hbm0, rfl⟩ := List.mem_map.1 hbm
      rw [List.length_map]
      exact (hdec _ _ _ _ _).2 bm0 hbm0
    · rw [if_neg hne] at hbm
      exact (hdec _ _ _ _ _).2 bm hbm
  · intro hne
    unfold infResult
    rw [if_pos hne]

/-- A concrete flow module whose decoder returns a fixed batch-1 output
with two mel channels, used to exercise the mel-channel theorem. -/
def tinyFlow2 : MaskedDiffWithXvec :=
  { output_size := 2
    input_frame_rate := 50
    vocab_size := 2
    input_embedding := [[1], [2]]
    spk_embed_affine_layer := { weight := [[1], [1]], bias := [0, 0] }
    encoder := fun x l => (x, l)
    encoder_proj := { weight := [[1]], bias := [0] }
    length_regulator := fun h l => (h, l)
    decoder := fun _ _ _ _ _ => [[[5, 6], [7, 8]]]
    decoder_loss := fun _ _ _ _ _ => 0 }

theorem inference_mel_channels_witness :
    (infResult tinyFlow2 [[0]] [1] [[]] [0] [[[1, 2]]] [1] [[1]]).length = 1 :=
  (inference_mel_channels tinyFlow2 [[0]] [1] [[]] [0] [[[1, 2]]] [1] [[1]]
    rfl rfl rfl
    (by
      intro mu mask spks cond nt
      refine ⟨rfl, ?_⟩
      intro bm hbm
      simp [tinyFlow2] at hbm
      subst hbm
      rfl)).2.2.1

/-- C10: speech token ids are clamped at 0 before the `input_embedding`
lookup (`embedTokens`, used by both `forward` and `inference`): whenever
every id is below `vocab_size`, the clamped index is a valid row index of
the embedding table — the lookup never falls back to the out-of-bounds
default — and negative ids (e.g. padding) are read as id 0, while
non-negative ids are read unchanged. -/
theorem clamp_embedding_safe (table : Mat) (vocab : ℕ)
    (hlen : table.length = vocab) (hv : 0 < vocab)
    (token : List (List ℤ))
    (hids : ∀ r ∈ token, ∀ id ∈ r, id < (vocab : ℤ)) :
    (∀ r ∈ token, ∀ id ∈ r,
        0 ≤ clampMin0 id ∧ (clampMin0 id).toNat < table.length
        ∧ (id < 0 → clampMin0 id = 0) ∧ (0 ≤ id → clampMin0 id = id))
    ∧ ∀ d : Vec, embedTokens table token
        = token.map (fun r => r.map (fun id => table.getD (clampMin0 id).toNat d)) := by
  constructor
  · intro r hr id hid
    have hlt := hids r hr id hid
    rw [hlen]
    unfold clampMin0
    refine ⟨?_, ?_, ?_, ?_⟩ <;> omega
  · intro d
    unfold embedTokens
    apply List.map_congr_left
    intro r hr
    apply List.map_congr_left
    intro id hid
    have hb : (clampMin0 id).toNat < table.length := by
      have hlt := hids r hr id hid
      rw [hlen]
      unfold clampMin0
      omega
    rw [List.getD_eq_getElem _ _ hb, List.getD_eq_getElem _ _ hb]

theorem clamp_embedding_safe_witness :
    0 ≤ clampMin0 (-3) ∧ (clampMin0 (-3)).toNat < ([[1], [2]] : Mat).length
    ∧ ((-3 : ℤ) < 0 → clampMin0 (-3) = 0) ∧ ((0 : ℤ) ≤ -3 → clampMin0 (-3) = -3) :=
  (clamp_embedding_safe [[1], [2]] 2 rfl (by decide) [[-3, 1]]
    (by decide)).1 [-3, 1] (by simp) (-3) (by simp)

end
